import Mathlib

/-!
Verification development for the `chistes-nlp` notebook: a linear NLP
pipeline over a corpus of Spanish jokes (load CSV, annotate with spacy,
filter content words, vectorize, label-encode, split/train/score, topic
model, visualize).  The custom code of the notebook is embedded below;
the external collaborators (spacy annotator, scikit-learn vectorizers,
label encoder, splitter) are modelled from the contracts stated in the
repository specification.
-/

namespace ChistesNlp

/-! ### Linguistic annotation: tokens

A spacy token exposes (among others) `text`, `lemma_` and `pos_`.
The annotator itself is external: it is a parameter of type
`String → List Token` (or, when fallibility matters, an `Except`). -/

structure Token where
  text : String
  lemma_ : String
  pos_ : String
deriving DecidableEq, Repr

/-- Coarse part-of-speech test used by the notebook:
`token.pos_ in ("NOUN", "VERB", "ADJ", "ADV")`. -/
def isContentPos (p : String) : Bool :=
  p = "NOUN" || p = "VERB" || p = "ADJ" || p = "ADV"

/-- Source cell-26:
`result = [token.lemma_ for token in processed if token.pos_ in ("NOUN","VERB","ADJ","ADV")]`
then `" ".join(result)`, where `processed = nlp(s)`. -/
def keep_only_content_words (nlp : String → List Token) (s : String) : String :=
  " ".intercalate (((nlp s).filter (fun t => isContentPos t.pos_)).map Token.lemma_)

/-- Specification-side rendering of the filtering policy: walk the token
sequence in order, keeping the lemma of each content-word token. -/
def contentLemmas : List Token → List String
  | [] => []
  | t :: ts => if isContentPos t.pos_ then t.lemma_ :: contentLemmas ts else contentLemmas ts

theorem contentLemmas_eq_filter_map (ts : List Token) :
    contentLemmas ts = (ts.filter (fun t => isContentPos t.pos_)).map Token.lemma_ := by
  induction ts with
  | nil => rfl
  | cons t ts ih =>
    by_cases h : isContentPos t.pos_
    · simp [contentLemmas, List.filter_cons, h, ih]
    · simp [contentLemmas, List.filter_cons, h, ih]

end ChistesNlp

namespace ChistesNlp

/-- C2: For every annotator and every document string, `keep_only_content_words`
returns the whitespace-join of the lemmas of exactly the tokens whose coarse
part-of-speech is NOUN, VERB, ADJ or ADV, in the original token order (only
the lemma form is retained), and a document with zero qualifying tokens yields
the empty string. -/
theorem C2_content_filter_correct (nlp : String → List Token) (s : String) :
    keep_only_content_words nlp s = " ".intercalate (contentLemmas (nlp s)) ∧
    ((∀ t ∈ nlp s, ¬ isContentPos t.pos_) → keep_only_content_words nlp s = "") := by
  constructor
  · rw [keep_only_content_words, contentLemmas_eq_filter_map]
  · intro h
    have hf : (nlp s).filter (fun t => isContentPos t.pos_) = [] := by
      apply List.filter_eq_nil_iff.2
      intro t ht
      simpa using h t ht
    rw [keep_only_content_words, hf]
    rfl

/-- Witness for C2 at a concrete annotator and document. -/
theorem C2_content_filter_correct_witness :
    keep_only_content_words (fun _ => [⟨"perros", "perro", "NOUN"⟩, ⟨"y", "y", "CONJ"⟩]) "d" =
      " ".intercalate (contentLemmas [⟨"perros", "perro", "NOUN"⟩, ⟨"y", "y", "CONJ"⟩]) :=
  (C2_content_filter_correct (fun _ => [⟨"perros", "perro", "NOUN"⟩, ⟨"y", "y", "CONJ"⟩]) "d").1

/-! ### Idempotence of the content filter (C3)

The filter re-runs the annotator on its own output.  Nothing in the code
constrains how the annotator analyses a whitespace-joined lemma string, so
idempotence depends on the annotator being stable on lemmas. -/

/-- An annotator (consistent with the spec contract: deterministic and total)
that re-lemmatises a lemma to a different word on the second pass. -/
def nlpShift : String → List Token := fun s =>
  if s = "niños" then [⟨"niños", "niño", "NOUN"⟩]
  else if s = "niño" then [⟨"niño", "chico", "NOUN"⟩]
  else []

/-- C3 counterexample: the content filter is not idempotent for every
annotator and document; with `nlpShift` the first pass yields a lemma that
the second pass rewrites again. -/
theorem C3_counterexample :
    ¬ ∀ (nlp : String → List Token) (s : String),
        keep_only_content_words nlp (keep_only_content_words nlp s) =
          keep_only_content_words nlp s := by
  intro h
  have h2 := h nlpShift "niños"
  revert h2
  decide

/-- C3 (amended): the content filter is idempotent for every document on
which the annotator is lemma-stable, i.e. re-annotating the filtered string
tokenises it into exactly the kept lemmas, each being its own lemma and
keeping its (content) part-of-speech. -/
theorem C3_filter_idempotent_for_stable_annotator (nlp : String → List Token) (s : String)
    (h : nlp (keep_only_content_words nlp s) =
      ((nlp s).filter (fun t => isContentPos t.pos_)).map
        (fun t => ⟨t.lemma_, t.lemma_, t.pos_⟩)) :
    keep_only_content_words nlp (keep_only_content_words nlp s) =
      keep_only_content_words nlp s := by
  conv_lhs => rw [keep_only_content_words, h]
  rw [List.filter_map]
  have hfix : ((nlp s).filter (fun t => isContentPos t.pos_)).filter
      ((fun t : Token => isContentPos t.pos_) ∘ (fun t : Token => Token.mk t.lemma_ t.lemma_ t.pos_)) =
      (nlp s).filter (fun t => isContentPos t.pos_) := by
    rw [List.filter_filter]
    apply List.filter_congr
    intro t _
    simp [Function.comp, Bool.and_comm]
  rw [hfix, List.map_map]
  rfl

/-- A concrete annotator that is lemma-stable on the document used by the
witness below. -/
def nlpStable : String → List Token := fun s =>
  if s = "perros feos" then [⟨"perros", "perro", "NOUN"⟩, ⟨"feos", "feo", "ADJ"⟩]
  else if s = "perro feo" then [⟨"perro", "perro", "NOUN"⟩, ⟨"feo", "feo", "ADJ"⟩]
  else []

/-- Witness for C3 (amended) at a concrete lemma-stable annotator. -/
theorem C3_filter_idempotent_for_stable_annotator_witness :
    keep_only_content_words nlpStable (keep_only_content_words nlpStable "perros feos") =
      keep_only_content_words nlpStable "perros feos" :=
  C3_filter_idempotent_for_stable_annotator nlpStable "perros feos" (by decide)

/-! ### Fallible annotation and batch filtering (C7)

The source `keep_only_content_words` has no exception handling, and the
batch step is `df["text"].apply(keep_only_content_words)`.  We model the
annotator as fallible (`AnnotationError` carried by `Except`): the source
propagates any error, and `apply` aborts at the first raised exception. -/

/-- `keep_only_content_words` over a fallible annotator: the source body has
no try/except, so an annotator error propagates unchanged. -/
def keep_only_content_words_E (nlp : String → Except String (List Token)) (s : String) :
    Except String String :=
  match nlp s with
  | .error e => .error e
  | .ok toks => .ok (" ".intercalate ((toks.filter (fun t => isContentPos t.pos_)).map Token.lemma_))

/-- `df["text"].apply(keep_only_content_words)`: documents are processed in
order and the first raised exception aborts the whole apply. -/
def batchFilter (nlp : String → Except String (List Token)) : List String → Except String (List String)
  | [] => .ok []
  | d :: ds =>
    match keep_only_content_words_E nlp d with
    | .error e => .error e
    | .ok r =>
      match batchFilter nlp ds with
      | .error e => .error e
      | .ok rs => .ok (r :: rs)

def isError : Except String α → Bool
  | .error _ => true
  | .ok _ => false

/-- An annotator that rejects the empty document with an `AnnotationError`. -/
def nlpRejectsEmpty : String → Except String (List Token) := fun s =>
  if s = "" then .error "AnnotationError" else .ok []

/-- C7 counterexample: the batch filtering step does not skip a document the
annotator rejects — with an annotator that rejects `""`, the batch over
`["", "hola"]` does not produce one (empty) result per document. -/
theorem C7_counterexample :
    ¬ ∀ (nlp : String → Except String (List Token)) (docs : List String),
        ∃ out, batchFilter nlp docs = .ok out ∧ out.length = docs.length := by
  intro h
  obtain ⟨out, hout, _⟩ := h nlpRejectsEmpty ["", "hola"]
  simp [batchFilter, keep_only_content_words_E, nlpRejectsEmpty] at hout

/-- C7 (amended): an `AnnotationError` is fatal to the batch — if the
annotator rejects any document, the whole apply aborts with an error (no
skipping, no empty-string placeholder); only when every document is accepted
does the batch return one filtered string per document. -/
theorem C7_annotation_error_aborts_batch (nlp : String → Except String (List Token))
    (docs : List String) :
    ((∃ d ∈ docs, isError (nlp d) = true) → isError (batchFilter nlp docs) = true) ∧
    ((∀ d ∈ docs, isError (nlp d) = false) →
      ∃ out, batchFilter nlp docs = .ok out ∧ out.length = docs.length) := by
  induction docs with
  | nil =>
    refine ⟨fun h => ?_, fun _ => ⟨[], rfl, rfl⟩⟩
    obtain ⟨d, hd, _⟩ := h
    exact absurd hd (List.not_mem_nil d)
  | cons d ds ih =>
    constructor
    · rintro ⟨e, he, herr⟩
      rcases List.mem_cons.1 he with rfl | hmem
      · rw [batchFilter, keep_only_content_words_E]
        cases hnl : nlp e with
        | error msg => simp [isError]
        | ok toks => rw [hnl] at herr; simp [isError] at herr
      · rw [batchFilter, keep_only_content_words_E]
        cases hnl : nlp d with
        | error msg => simp [isError]
        | ok toks =>
          have htail := ih.1 ⟨e, hmem, herr⟩
          cases hbf : batchFilter nlp ds with
          | error msg => simp [isError]
          | ok rs => rw [hbf] at htail; simp [isError] at htail
    · intro hall
      have hd : isError (nlp d) = false := hall d (List.mem_cons_self d ds)
      obtain ⟨out, hout, hlen⟩ := ih.2 (fun e he => hall e (List.mem_cons_of_mem d he))
      rw [batchFilter, keep_only_content_words_E]
      cases hnl : nlp d with
      | error msg => rw [hnl] at hd; simp [isError] at hd
      | ok toks =>
        rw [hout]
        exact ⟨_, rfl, by simp [hlen]⟩

/-- Witness for C7 (amended): both conjuncts at concrete inputs. -/
theorem C7_annotation_error_aborts_batch_witness :
    isError (batchFilter nlpRejectsEmpty ["", "hola"]) = true :=
  (C7_annotation_error_aborts_batch nlpRejectsEmpty ["", "hola"]).1 (by decide)

/-! ### Label encoder (C4)

Source cell-37: `enc = LabelEncoder(); y = enc.fit_transform(df.category)`.
The encoder is an external collaborator; per the spec contract it maps the
distinct category strings, sorted lexicographically, onto `[0, k)`, with a
retrievable inverse. -/

/-- Modelled from the spec: `LabelEncoder.fit` — the list of distinct
category strings in lexicographically sorted order (`classes_`). -/
def fitClasses (labels : List String) : List String :=
  List.insertionSort (fun a b => a ≤ b) labels.dedup

/-- Modelled from the spec: `LabelEncoder.transform` of one label — its
position in the sorted class list. -/
def encodeLabel (classes : List String) (l : String) : Nat := classes.indexOf l

/-- Modelled from the spec: `LabelEncoder.inverse_transform` of one id. -/
def decodeLabel (classes : List String) (i : Nat) : String := classes.getD i ""

theorem mem_fitClasses {labels : List String} {l : String} :
    l ∈ fitClasses labels ↔ l ∈ labels := by
  rw [fitClasses, List.mem_insertionSort, List.mem_dedup]

theorem nodup_fitClasses (labels : List String) : (fitClasses labels).Nodup :=
  ((List.perm_insertionSort _ _).nodup_iff).2 labels.nodup_dedup

/-- C4: the label encoder maps the distinct category strings bijectively onto
`[0, k)` in lexicographically sorted order, and decoding the id of an observed label returns the label. -/
theorem C4_label_encoder_bijective_roundtrip (labels : List String) :
    List.Sorted (· ≤ ·) (fitClasses labels) ∧
    (∀ l, l ∈ fitClasses labels ↔ l ∈ labels) ∧
    (∀ l ∈ labels, encodeLabel (fitClasses labels) l < (fitClasses labels).length) ∧
    (∀ a ∈ labels, ∀ b ∈ labels,
      encodeLabel (fitClasses labels) a = encodeLabel (fitClasses labels) b → a = b) ∧
    (∀ i < (fitClasses labels).length, ∃ l ∈ labels, encodeLabel (fitClasses labels) l = i) ∧
    (∀ l ∈ labels, decodeLabel (fitClasses labels) (encodeLabel (fitClasses labels) l) = l) := by
  set classes := fitClasses labels with hc
  have hmem : ∀ l, l ∈ classes ↔ l ∈ labels := fun l => mem_fitClasses
  refine ⟨?_, hmem, ?_, ?_, ?_, ?_⟩
  · exact List.sorted_insertionSort _ _
  · intro l hl
    exact List.indexOf_lt_length.2 ((hmem l).2 hl)
  · intro a ha b hb hab
    exact (List.indexOf_inj ((hmem a).2 ha) ((hmem b).2 hb)).1 hab
  · intro i hi
    refine ⟨classes.get ⟨i, hi⟩, (hmem _).1 (classes.get_mem _ _), ?_⟩
    have hlt : classes.indexOf (classes.get ⟨i, hi⟩) < classes.length :=
      List.indexOf_lt_length.2 (classes.get_mem _ _)
    have hgg : classes.get ⟨classes.indexOf (classes.get ⟨i, hi⟩), hlt⟩ = classes.get ⟨i, hi⟩ :=
      List.indexOf_get hlt
    have := ((nodup_fitClasses labels).get_inj_iff).1 hgg
    exact congrArg Fin.val this
  · intro l hl
    have hlt : classes.indexOf l < classes.length := List.indexOf_lt_length.2 ((hmem l).2 hl)
    rw [decodeLabel, encodeLabel, List.getD_eq_getElem _ _ hlt]
    exact List.getElem_indexOf hlt

/-- Witness for C4 at a concrete category list. -/
theorem C4_label_encoder_bijective_roundtrip_witness :
    decodeLabel (fitClasses ["otros", "animales", "otros"])
      (encodeLabel (fitClasses ["otros", "animales", "otros"]) "otros") = "otros" :=
  (C4_label_encoder_bijective_roundtrip ["otros", "animales", "otros"]).2.2.2.2.2
    "otros" (by decide)

/-! ### Vectorizer vocabulary selection (C5)

Source cells 20/29 (`CountVectorizer(max_df=200, max_features=20)`) and
cell-35 (`TfidfVectorizer(max_df=200, max_features=500)`).  The vectorizer
is an external collaborator; per the spec contract it tokenizes each
document, drops every term whose document frequency exceeds the `max_df`
ceiling, and keeps only the `max_features` most frequent remaining terms.
Documents are modelled as token lists (tokenization itself is internal to
the collaborator). -/

/-- Number of documents in which term `t` appears. -/
def docFreq (docs : List (List String)) (t : String) : Nat :=
  (docs.filter (fun d => t ∈ d)).length

/-- Total number of occurrences of term `t` in the corpus. -/
def corpusCount (docs : List (List String)) (t : String) : Nat :=
  (docs.map (fun d => d.count t)).sum

/-- Frequency ranking of terms: more corpus occurrences first, ties broken
alphabetically. -/
def freqRank (cnt : String → Nat) (a b : String) : Prop :=
  cnt b < cnt a ∨ (cnt a = cnt b ∧ a ≤ b)

instance (cnt : String → Nat) : DecidableRel (freqRank cnt) := fun a b => by
  unfold freqRank
  exact inferInstance

/-- Modelled from the spec: the vectorizer vocabulary — distinct corpus
terms with document frequency at most `maxDf`, restricted to the
`maxFeatures` most frequent, listed alphabetically. -/
def vocabularyOf (maxDf maxFeatures : Nat) (docs : List (List String)) : List String :=
  let candidates := (docs.flatten.dedup).filter (fun t => docFreq docs t ≤ maxDf)
  let ranked := List.insertionSort (freqRank (corpusCount docs)) candidates
  List.insertionSort (fun a b => a ≤ b) (ranked.take maxFeatures)

/-- Source constant `max_jokes_with_that_word = 200`. -/
def max_jokes_with_that_word : Nat := 200

/-- Vocabulary of `vectorizer20 = CountVectorizer(max_df=200, max_features=20)`. -/
def vectorizer20Vocabulary (docs : List (List String)) : List String :=
  vocabularyOf max_jokes_with_that_word 20 docs

/-- Vocabulary of `tfidf_vectorizer = TfidfVectorizer(max_df=200, max_features=500)`. -/
def tfidfVocabulary (docs : List (List String)) : List String :=
  vocabularyOf max_jokes_with_that_word 500 docs

theorem length_vocabularyOf_le (maxDf maxFeatures : Nat) (docs : List (List String)) :
    (vocabularyOf maxDf maxFeatures docs).length ≤ maxFeatures := by
  rw [vocabularyOf, List.length_insertionSort, List.length_take]
  exact min_le_left _ _

theorem docFreq_le_of_mem_vocabularyOf {maxDf maxFeatures : Nat} {docs : List (List String)}
    {t : String} (ht : t ∈ vocabularyOf maxDf maxFeatures docs) :
    docFreq docs t ≤ maxDf := by
  rw [vocabularyOf, List.mem_insertionSort] at ht
  have h1 := (List.mem_insertionSort (freqRank (corpusCount docs))).1 (List.mem_of_mem_take ht)
  have h2 := (List.mem_filter.1 h1).2
  simpa using h2

/-- C5: after any vectorizer fit, the vocabulary has at most `maxFeatures`
terms and contains no term whose document frequency exceeds `maxDf`; in
particular the exploratory vectorizer keeps at most 20 terms and the tf-idf
vectorizer at most 500, each with document frequency at most 200. -/
theorem C5_vocabulary_caps (docs : List (List String)) :
    (∀ maxDf maxFeatures : Nat,
      (vocabularyOf maxDf maxFeatures docs).length ≤ maxFeatures ∧
      ∀ t ∈ vocabularyOf maxDf maxFeatures docs, docFreq docs t ≤ maxDf) ∧
    (vectorizer20Vocabulary docs).length ≤ 20 ∧
    (∀ t ∈ vectorizer20Vocabulary docs, docFreq docs t ≤ 200) ∧
    (tfidfVocabulary docs).length ≤ 500 ∧
    (∀ t ∈ tfidfVocabulary docs, docFreq docs t ≤ 200) := by
  refine ⟨fun maxDf maxFeatures => ⟨length_vocabularyOf_le _ _ _,
    fun t ht => docFreq_le_of_mem_vocabularyOf ht⟩, ?_, ?_, ?_, ?_⟩
  · exact length_vocabularyOf_le _ _ _
  · exact fun t ht => docFreq_le_of_mem_vocabularyOf ht
  · exact length_vocabularyOf_le _ _ _
  · exact fun t ht => docFreq_le_of_mem_vocabularyOf ht

/-- Witness for C5 at a concrete corpus and knobs. -/
theorem C5_vocabulary_caps_witness :
    (vocabularyOf 1 1 [["perro", "gato"], ["perro"]]).length ≤ 1 :=
  ((C5_vocabulary_caps [["perro", "gato"], ["perro"]]).1 1 1).1

/-! ### Train/test split and the split-train-evaluate pipeline (C6)

Source cell-40: `train_test_split(X, y, random_state=1)` (default 25%
holdout) and cell-43: `RandomForestClassifier(n_estimators=200,
random_state=1).fit(...).score(...)`.  Both collaborators are external;
per the spec contract a fixed seed makes them pure functions of their
inputs, which is how they are modelled: the splitter shuffle is a
deterministic seed-keyed permutation, and the fitted classifier is a
function of the training data. -/

/-- Modelled from the spec: a seed-keyed hash driving the pseudo-random
shuffle of the splitter. -/
def lcgKey (seed i : Nat) : Nat := (1103515245 * (seed + i) + 12345) % 2 ^ 31

/-- Index ranking used to shuffle `[0, n)`: by hashed key, ties by index. -/
def keyRank (key : Nat → Nat) (a b : Nat) : Prop :=
  key a < key b ∨ (key a = key b ∧ a ≤ b)

instance (key : Nat → Nat) : DecidableRel (keyRank key) := fun a b => by
  unfold keyRank
  exact inferInstance

/-- Modelled from the spec: the deterministic permutation of `[0, n)` that
a fixed `random_state=seed` induces. -/
def permOfSeed (seed n : Nat) : List Nat :=
  List.insertionSort (keyRank (lcgKey seed)) (List.range n)

/-- Default holdout fraction `test_size=0.25`: `ceil(n/4)` test rows. -/
def nTest (n : Nat) : Nat := (n + 3) / 4

/-- Modelled from the spec: `train_test_split(X, y, random_state=seed)` —
one seed-determined index permutation applied jointly to `X` and `y`; the
first `nTest` shuffled indices form the test partition, the rest the train
partition. -/
def train_test_split [Inhabited α] [Inhabited β] (X : List α) (y : List β) (seed : Nat) :
    List α × List α × List β × List β :=
  let p := permOfSeed seed X.length
  let testIdx := p.take (nTest X.length)
  let trainIdx := p.drop (nTest X.length)
  (trainIdx.map (fun i => X.getD i default), testIdx.map (fun i => X.getD i default),
   trainIdx.map (fun i => y.getD i default), testIdx.map (fun i => y.getD i default))

/-- `clf.score`: fraction of exact label matches of a fitted predictor. -/
def scoreOf (pred : List ℚ → Nat) (X : List (List ℚ)) (y : List Nat) : ℚ :=
  (((X.zip y).filter (fun p => pred p.1 = p.2)).length : ℚ) / (X.length : ℚ)

structure RunResult where
  X_train : List (List ℚ)
  X_test : List (List ℚ)
  y_train : List Nat
  y_test : List Nat
  train_score : ℚ
  test_score : ℚ

/-- Source cells 40/43 as one function: split with the given seed, fit the
classifier on the train partition only, and score both partitions.  The
random-forest fit (seeded, hence deterministic per the spec contract) is
the parameter `fitClf`. -/
def runPipeline (fitClf : List (List ℚ) → List Nat → (List ℚ → Nat))
    (X : List (List ℚ)) (y : List Nat) (seed : Nat) : RunResult :=
  let s := train_test_split X y seed
  let clf := fitClf s.1 s.2.2.1
  { X_train := s.1, X_test := s.2.1, y_train := s.2.2.1, y_test := s.2.2.2,
    train_score := scoreOf clf s.1 s.2.2.1, test_score := scoreOf clf s.2.1 s.2.2.2 }

/-- C6: the split-train-evaluate pipeline is deterministic — two runs on the
same corpus with the same seed yield identical train/test partitions and
identical train and test accuracies, and the resolved vocabulary is a
function of the corpus and the two knobs alone. -/
theorem C6_pipeline_deterministic (fitClf : List (List ℚ) → List Nat → (List ℚ → Nat))
    (X : List (List ℚ)) (y : List Nat) (seed : Nat) (r1 r2 : RunResult)
    (h1 : r1 = runPipeline fitClf X y seed) (h2 : r2 = runPipeline fitClf X y seed) :
    (r1.X_train = r2.X_train ∧ r1.X_test = r2.X_test ∧
     r1.y_train = r2.y_train ∧ r1.y_test = r2.y_test) ∧
    (r1.train_score = r2.train_score ∧ r1.test_score = r2.test_score) ∧
    (∀ (docs docs2 : List (List String)) (maxDf maxDf2 maxFeatures maxFeatures2 : Nat),
      docs = docs2 → maxDf = maxDf2 → maxFeatures = maxFeatures2 →
      vocabularyOf maxDf maxFeatures docs = vocabularyOf maxDf2 maxFeatures2 docs2) := by
  subst h1
  subst h2
  refine ⟨⟨rfl, rfl, rfl, rfl⟩, ⟨rfl, rfl⟩, ?_⟩
  rintro docs docs2 maxDf maxDf2 maxFeatures maxFeatures2 rfl rfl rfl
  rfl

/-- A concrete stand-in for the seeded random-forest fit. -/
def clfConst : List (List ℚ) → List Nat → (List ℚ → Nat) := fun _ _ _ => 0

/-- Witness for C6 at a concrete classifier, corpus and seed. -/
theorem C6_pipeline_deterministic_witness :
    (runPipeline clfConst [[1], [2], [3], [4]] [0, 1, 0, 1] 1).train_score =
      (runPipeline clfConst [[1], [2], [3], [4]] [0, 1, 0, 1] 1).train_score :=
  (C6_pipeline_deterministic clfConst [[1], [2], [3], [4]] [0, 1, 0, 1] 1
    (runPipeline clfConst [[1], [2], [3], [4]] [0, 1, 0, 1] 1)
    (runPipeline clfConst [[1], [2], [3], [4]] [0, 1, 0, 1] 1) rfl rfl).2.1.1

/-! ### Row alignment across the pipeline (C1)

The document table is id-indexed (`pd.read_csv(..., index_col="id")`), and
cell-53 appends the topic weights with
`pd.concat([df, pd.DataFrame(topics, columns=[...])], axis=1)`.
A pandas `concat` on `axis=1` aligns rows by INDEX, not by position: the
new `pd.DataFrame(topics)` carries the default range index `0..n-1`, so the
join is positional only when the joke id index happens to be exactly that
range; otherwise the result is reindexed on the union of the two indexes
with missing entries `NaN` (modelled as `none`). -/

/-- An id-indexed table: list of (index value, row). -/
def dfIndex (d : List (Nat × α)) : List Nat := d.map Prod.fst

/-- `pd.DataFrame(rows)` — a table carrying the default range index. -/
def defaultIndexed (rows : List α) : List (Nat × α) := (List.range rows.length).zip rows

/-- Modelled from the spec (pandas semantics of `pd.concat(..., axis=1)`):
with equal indexes the rows are combined positionally; with different
indexes the result is reindexed on the sorted union of the two indexes and
unmatched rows are filled with `NaN` (`none`). -/
def concatAxis1 (d1 : List (Nat × α)) (d2 : List (Nat × β)) :
    List (Nat × (Option α × Option β)) :=
  if dfIndex d1 = dfIndex d2 then
    List.zipWith (fun a b => (a.1, (some a.2, some b.2))) d1 d2
  else
    (List.insertionSort (fun a b => a ≤ b) ((dfIndex d1 ++ dfIndex d2).dedup)).map
      (fun i => (i, (List.lookup i d1, List.lookup i d2)))

/-- Source cell-20/29/35: the bag-of-words matrix has one row per document
(row i counts the vocabulary terms of document i). -/
def featureMatrix (vocab : List String) (docs : List (List String)) : List (List Nat) :=
  docs.map (fun d => vocab.map (fun t => d.count t))

theorem dfIndex_defaultIndexed (rows : List α) :
    dfIndex (defaultIndexed rows) = List.range rows.length := by
  rw [defaultIndexed, dfIndex]
  exact List.map_fst_zip _ _ (by simp)

/-- C1 counterexample: appending the topic-weight columns does NOT preserve
row alignment for every corpus — for a one-joke table whose id index is
`[1]`, the concat with the range-indexed topic frame yields two rows. -/
theorem C1_counterexample :
    ¬ ∀ (d : List (Nat × String)) (topics : List String), d.length = topics.length →
        (concatAxis1 d (defaultIndexed topics)).length = d.length := by
  intro h
  have h2 := h [(1, "joke")] ["w"] rfl
  revert h2
  decide

/-- C1 (amended): every stage keeps the document table, the feature matrix
and the label vector row-aligned — the feature matrix has one row per
document, the label vector one entry per document, and the splitter applies
one shared index permutation to features and labels — and appending the
per-document topic-weight columns preserves the alignment exactly for
corpora whose id index is the default range `0..n-1` (the concat is
positional in that case). -/
theorem C1_row_alignment (docs : List (List String)) (vocab : List String)
    (labels : List String) (X : List (List ℚ)) (y : List Nat) (seed : Nat)
    (d : List (Nat × String)) (topics : List (List ℚ))
    (hidx : dfIndex d = List.range topics.length) :
    (featureMatrix vocab docs).length = docs.length ∧
    (labels.map (encodeLabel (fitClasses labels))).length = labels.length ∧
    ((train_test_split X y seed).1.zip (train_test_split X y seed).2.2.1 =
      ((permOfSeed seed X.length).drop (nTest X.length)).map
        (fun i => (X.getD i default, y.getD i default)) ∧
     (train_test_split X y seed).2.1.zip (train_test_split X y seed).2.2.2 =
      ((permOfSeed seed X.length).take (nTest X.length)).map
        (fun i => (X.getD i default, y.getD i default))) ∧
    concatAxis1 d (defaultIndexed topics) =
      List.zipWith (fun a b => (a.1, (some a.2, some b.2))) d (defaultIndexed topics) ∧
    (concatAxis1 d (defaultIndexed topics)).length = d.length := by
  have hdlen : d.length = topics.length := by
    have := congrArg List.length hidx
    simpa [dfIndex] using this
  have heq : dfIndex d = dfIndex (defaultIndexed topics) := by
    rw [dfIndex_defaultIndexed]
    exact hidx
  have hconcat : concatAxis1 d (defaultIndexed topics) =
      List.zipWith (fun a b => (a.1, (some a.2, some b.2))) d (defaultIndexed topics) := by
    rw [concatAxis1, if_pos heq]
  refine ⟨by simp [featureMatrix], by simp, ⟨?_, ?_⟩, hconcat, ?_⟩
  · rw [train_test_split]
    exact List.zip_map' _ _ _
  · rw [train_test_split]
    exact List.zip_map' _ _ _
  · rw [hconcat, List.length_zipWith, defaultIndexed, List.length_zip]
    simp [hdlen]

/-- Witness for C1 (amended) at a range-indexed concrete table. -/
theorem C1_row_alignment_witness :
    (concatAxis1 [(0, "joke")] (defaultIndexed [[(1 : ℚ)]])).length = 1 :=
  (C1_row_alignment [] [] [] [] [] 0 [(0, "joke")] [[(1 : ℚ)]] (by decide)).2.2.2.2

/-! ### Corpus loader (C8)

Source cell-3: `pd.read_csv("chistes.csv", index_col="id", dtype=(text: str))`.
`read_csv` raises when the file is missing, and when the requested index
column `id` is not in the header; it does NOT validate the presence of the
`text` or `category` columns (a `dtype` entry for an absent column is
silently ignored).  Each present column is numerically coerced when all its
values parse as numbers, except `text`, whose dtype override keeps it a
string. -/

structure CsvFile where
  header : List String
  rows : List (List String)
deriving DecidableEq

inductive LoadError where
  | fileMissing
  | indexColumnMissing
deriving DecidableEq

/-- A loaded value: pandas stores a column as numbers or as strings. -/
inductive Cell where
  | num (n : Nat)
  | str (s : String)
deriving DecidableEq

def isErrorL : Except LoadError α → Bool
  | .error _ => true
  | .ok _ => false

/-- Raw values of column `c` (empty strings pad short rows). -/
def colValues (f : CsvFile) (c : String) : List String :=
  f.rows.map (fun r => r.getD (f.header.indexOf c) "")

def parsesAsNat (s : String) : Bool := s ≠ "" && s.all Char.isDigit

/-- Pandas column inference: numeric when every value parses, except the
`text` column, pinned to `str` by the dtype override for `text`. -/
def loadColumn (name : String) (vals : List String) : List Cell :=
  if name ≠ "text" ∧ vals.all parsesAsNat then vals.map (fun v => Cell.num (v.toNat?.getD 0))
  else vals.map Cell.str

/-- The in-memory table: index column name, its raw values, and the
remaining columns. -/
structure Frame where
  indexName : String
  index : List String
  cols : List (String × List Cell)
deriving DecidableEq

/-- Modelled from the spec: the corpus-loading call.  `none` stands for a
missing file; otherwise `read_csv` only requires the `id` index column. -/
def loadCorpus : Option CsvFile → Except LoadError Frame
  | none => .error .fileMissing
  | some f =>
    if "id" ∈ f.header then
      .ok { indexName := "id", index := colValues f "id",
            cols := (f.header.filter (fun c => c ≠ "id")).map
              (fun c => (c, loadColumn c (colValues f c))) }
    else .error .indexColumnMissing

/-- C8 counterexample: a present, parseable file whose column set is wrong
(no `category`, so not `{id, text, category}`) still loads successfully —
the loader does not fail on every wrong column set. -/
theorem C8_counterexample :
    ¬ ∀ (f : CsvFile), f.header ≠ ["id", "text", "category"] →
        isErrorL (loadCorpus (some f)) = true := by
  intro h
  have h2 := h ⟨["id", "text"], [["1", "hola"]]⟩ (by decide)
  revert h2
  decide

/-- C8 (amended): the loader fails exactly when the file is missing or the
identifier column `id` is absent (the `text`/`category` columns are not
validated at load time); on success the table is indexed by the `id` column
and a present `text` column is kept as opaque strings, never numerically
coerced. -/
theorem C8_loader_failure_and_text_opacity (file : Option CsvFile) :
    (isErrorL (loadCorpus file) = true ↔
      file = none ∨ ∃ f, file = some f ∧ "id" ∉ f.header) ∧
    (∀ vals : List String, loadColumn "text" vals = vals.map Cell.str) ∧
    (∀ f : CsvFile, file = some f → "id" ∈ f.header → "text" ∈ f.header →
      ∃ fr : Frame, loadCorpus file = .ok fr ∧ fr.indexName = "id" ∧
        fr.index = colValues f "id" ∧
        ("text", (colValues f "text").map Cell.str) ∈ fr.cols) := by
  refine ⟨?_, ?_, ?_⟩
  · cases file with
    | none => simp [loadCorpus, isErrorL]
    | some f =>
      by_cases hid : "id" ∈ f.header
      · simp [loadCorpus, hid, isErrorL]
      · simp [loadCorpus, hid, isErrorL]
  · intro vals
    rw [loadColumn, if_neg]
    simp
  · rintro f rfl hid htext
    refine ⟨_, by rw [loadCorpus, if_pos hid], rfl, rfl, ?_⟩
    have hmem : "text" ∈ f.header.filter (fun c => c ≠ "id") := by
      rw [List.mem_filter]
      exact ⟨htext, by decide⟩
    have := List.mem_map_of_mem (fun c => (c, loadColumn c (colValues f c))) hmem
    have htcol : loadColumn "text" (colValues f "text") = (colValues f "text").map Cell.str := by
      rw [loadColumn, if_neg]
      simp
    simpa [htcol] using this

/-- Witness for C8 (amended): the text column of a concrete well-formed file
is stored opaquely. -/
theorem C8_loader_failure_and_text_opacity_witness :
    ∃ fr : Frame,
      loadCorpus (some ⟨["id", "text", "category"], [["1", "2", "animales"]]⟩) = .ok fr ∧
      fr.indexName = "id" ∧
      fr.index = colValues ⟨["id", "text", "category"], [["1", "2", "animales"]]⟩ "id" ∧
      ("text",
        (colValues ⟨["id", "text", "category"], [["1", "2", "animales"]]⟩ "text").map Cell.str)
        ∈ fr.cols :=
  (C8_loader_failure_and_text_opacity
    (some ⟨["id", "text", "category"], [["1", "2", "animales"]]⟩)).2.2
    ⟨["id", "text", "category"], [["1", "2", "animales"]]⟩ rfl (by decide) (by decide)

/-! ### Topic model top words (C9)

Source cell-51: `LatentDirichletAllocation(n_components=10)` fitted on the
feature matrix, then `print_top_words(lda, tfidf_vectorizer.get_feature_names(), 8)`
prints, per topic row of `model.components_`, the terms
`feature_names[i] for i in topic.argsort()[:-n_top_words - 1:-1]`.
The LDA contract gives `components_` shape `n_components × n_features`. -/

/-- Index ranking by weight (ties by index): the order behind `argsort`. -/
def valRank (v : Nat → ℚ) (a b : Nat) : Prop :=
  v a < v b ∨ (v a = v b ∧ a ≤ b)

instance (v : Nat → ℚ) : DecidableRel (valRank v) := fun a b => by
  unfold valRank
  exact inferInstance

/-- `numpy.argsort` of a weight row: the indices `0..len-1` sorted by
ascending weight. -/
def argsort (xs : List ℚ) : List Nat :=
  List.insertionSort (valRank (fun i => xs.getD i 0)) (List.range xs.length)

/-- Source `print_top_words`, one output list per topic:
`topic.argsort()[:-n_top_words - 1:-1]` is the reversed argsort truncated to
`n_top_words` entries, mapped through `feature_names`. -/
def print_top_words (components : List (List ℚ)) (featureNames : List String)
    (nTopWords : Nat) : List (List String) :=
  components.map
    (fun topic => (((argsort topic).reverse).take nTopWords).map (fun i => featureNames.getD i ""))

theorem mem_argsort_lt {xs : List ℚ} {i : Nat} (h : i ∈ argsort xs) : i < xs.length := by
  rw [argsort, List.mem_insertionSort, List.mem_range] at h
  exact h

theorem getD_mem_of_lt {l : List α} {i : Nat} (h : i < l.length) (dflt : α) :
    l.getD i dflt ∈ l := by
  rw [List.getD_eq_getElem _ _ h]
  exact List.getElem_mem h

/-- C9: fitting 10 topics and listing the top 8 terms per topic yields
exactly 10 non-empty term lists whose terms all come from the fitted
vocabulary (given the LDA contract: `components_` has 10 rows, one weight
per vocabulary term, over a non-empty vocabulary). -/
theorem C9_top_words_from_vocabulary (components : List (List ℚ)) (featureNames : List String)
    (hc : components.length = 10)
    (hrow : ∀ row ∈ components, row.length = featureNames.length)
    (hne : featureNames ≠ []) :
    (print_top_words components featureNames 8).length = 10 ∧
    (∀ l ∈ print_top_words components featureNames 8, l ≠ []) ∧
    (∀ l ∈ print_top_words components featureNames 8, ∀ t ∈ l, t ∈ featureNames) := by
  refine ⟨by simpa [print_top_words] using hc, ?_, ?_⟩
  · intro l hl
    obtain ⟨row, hrowmem, rfl⟩ := List.mem_map.1 hl
    have hlen : row.length = featureNames.length := hrow row hrowmem
    have hpos : 0 < featureNames.length := List.length_pos.2 hne
    rw [← List.length_pos, List.length_map, List.length_take, List.length_reverse,
      argsort, List.length_insertionSort, List.length_range, hlen]
    exact lt_min (by norm_num) hpos
  · intro l hl t ht
    obtain ⟨row, hrowmem, rfl⟩ := List.mem_map.1 hl
    obtain ⟨i, hi, rfl⟩ := List.mem_map.1 ht
    have hmem : i ∈ argsort row := List.mem_reverse.1 (List.mem_of_mem_take hi)
    have hlt : i < featureNames.length := by
      rw [← hrow row hrowmem]
      exact mem_argsort_lt hmem
    exact getD_mem_of_lt hlt ""

/-- Witness for C9 at a concrete components matrix and vocabulary. -/
theorem C9_top_words_from_vocabulary_witness :
    (print_top_words (List.replicate 10 [(1 : ℚ)]) ["palabra"] 8).length = 10 :=
  (C9_top_words_from_vocabulary (List.replicate 10 [(1 : ℚ)]) ["palabra"]
    (by decide) (by decide) (by decide)).1

/-! ### Visualizer color indexing (C10)

Source cell-71: `X_reduced["color"] = df["y"].apply(lambda cat: "rgbcmyk"[cat])`.
Python string indexing raises `IndexError` when the index is out of range;
`"rgbcmyk"` has 7 characters, and `cat` ranges over the encoded category
ids `[0, k)`. -/

/-- The color palette string of cell-71. -/
def colorPalette : List Char := "rgbcmyk".toList

/-- Python `"rgbcmyk"[cat]`: the character, or an `IndexError` when the
index is out of range. -/
def colorOf (cat : Nat) : Except String Char :=
  if cat < colorPalette.length then .ok (colorPalette.getD cat 'r')
  else .error "IndexError: string index out of range"

/-- `df["y"].apply(...)`: colors are assigned document by document; a raised
`IndexError` aborts the apply. -/
def assignColors : List Nat → Except String (List Char)
  | [] => .ok []
  | c :: cs =>
    match colorOf c with
    | .error e => .error e
    | .ok ch =>
      match assignColors cs with
      | .error e => .error e
      | .ok rest => .ok (ch :: rest)

theorem assignColors_ok_of_forall_lt {ids : List Nat} (h : ∀ c ∈ ids, c < 7) :
    ∃ cs, assignColors ids = .ok cs := by
  induction ids with
  | nil => exact ⟨[], rfl⟩
  | cons c cs ih =>
    obtain ⟨rest, hrest⟩ := ih (fun e he => h e (List.mem_cons_of_mem c he))
    have hc : c < colorPalette.length := h c (List.mem_cons_self c cs)
    refine ⟨colorPalette.getD c 'r' :: rest, ?_⟩
    rw [assignColors, colorOf, if_pos hc, hrest]

theorem assignColors_error_of_exists_ge {ids : List Nat} (h : ∃ c ∈ ids, 7 ≤ c) :
    isError (assignColors ids) = true := by
  induction ids with
  | nil =>
    obtain ⟨c, hc, _⟩ := h
    exact absurd hc (List.not_mem_nil c)
  | cons c cs ih =>
    obtain ⟨e, he, hge⟩ := h
    rcases List.mem_cons.1 he with rfl | hmem
    · have : ¬ e < colorPalette.length := by
        have h7 : colorPalette.length = 7 := rfl
        omega
      rw [assignColors, colorOf, if_neg this]
      rfl
    · rw [assignColors]
      cases hco : colorOf c with
      | error msg => rfl
      | ok ch =>
        have := ih ⟨e, hmem, hge⟩
        cases hac : assignColors cs with
        | error msg => rfl
        | ok rest => rw [hac] at this; simp [isError] at this

/-- C10: the visualizer colors each document by `"rgbcmyk"[cat]` over the
encoded category ids; with at most 7 distinct categories every index is in
bounds and the coloring succeeds, while for any corpus with 8 or more
distinct categories the visualization step fails with an out-of-range index
error. -/
theorem C10_color_indexing_bound (labels : List String) :
    ((fitClasses labels).length ≤ 7 →
      ∃ cs, assignColors (labels.map (encodeLabel (fitClasses labels))) = .ok cs) ∧
    (8 ≤ (fitClasses labels).length →
      isError (assignColors (labels.map (encodeLabel (fitClasses labels)))) = true) := by
  constructor
  · intro hk
    apply assignColors_ok_of_forall_lt
    intro c hc
    obtain ⟨l, hl, rfl⟩ := List.mem_map.1 hc
    calc encodeLabel (fitClasses labels) l < (fitClasses labels).length :=
          List.indexOf_lt_length.2 (mem_fitClasses.2 hl)
      _ ≤ 7 := hk
  · intro hk
    apply assignColors_error_of_exists_ge
    have h7 : 7 < (fitClasses labels).length := by omega
    set e := (fitClasses labels).get ⟨7, h7⟩ with he
    have hmem : e ∈ fitClasses labels := (fitClasses labels).get_mem _ _
    have hlab : e ∈ labels := mem_fitClasses.1 hmem
    have hlt : (fitClasses labels).indexOf e < (fitClasses labels).length :=
      List.indexOf_lt_length.2 hmem
    have hgg : (fitClasses labels).get ⟨(fitClasses labels).indexOf e, hlt⟩ =
        (fitClasses labels).get ⟨7, h7⟩ := List.indexOf_get hlt
    have hidx : (fitClasses labels).indexOf e = 7 :=
      congrArg Fin.val (((nodup_fitClasses labels).get_inj_iff).1 hgg)
    exact ⟨encodeLabel (fitClasses labels) e, List.mem_map_of_mem _ hlab, by
      rw [encodeLabel, hidx]⟩

/-- Witness for C10: a corpus with 8 distinct categories makes the coloring
step fail. -/
theorem C10_color_indexing_bound_witness :
    isError (assignColors ((["a", "b", "c", "d", "e", "f", "g", "h"]).map
      (encodeLabel (fitClasses ["a", "b", "c", "d", "e", "f", "g", "h"])))) = true :=
  (C10_color_indexing_bound ["a", "b", "c", "d", "e", "f", "g", "h"]).2
    (by simp only [fitClasses, List.length_insertionSort]; decide)

end ChistesNlp
